import Mathlib

/-!
Verification development for `gpxsplit.py`, a script that converts GPX
tracks into routes of bounded length.

The script's core (lines 109-135 of `gpxsplit.py`) chunks each segment's
point list into windows of at most `max_route_length` points, names each
resulting route with the 3-digit zero-padded route index, an underscore and
the file base name, and backfills missing point
names with zero-padded sequential labels.  The writer (lines 141-160)
emits either one combined file or one file per route.  Everything below is
a shallow embedding of that code: Python lists become `List`, in-place
point mutation becomes explicit state passing of the relabelled lists, and
the `route_idx` / `point_idx` counters are threaded explicitly exactly at
the scopes where the script initialises them (per input file, resp. per
track).
-/

namespace GpxSplit

/-! ### Decimal formatting (the semantics of a zero-padding Python f-string) -/

/-- The character of a decimal digit value (0-9). -/
def digitChar (n : Nat) : Char := Char.ofNat (48 + n)

/-- Whether a character is a decimal digit `0`-`9`. -/
def isDigitChar (c : Char) : Bool := 48 ≤ c.toNat && c.toNat ≤ 57

/-- Numeric value of a digit character. -/
def digitVal (c : Char) : Nat := c.toNat - 48

/-- The number denoted by a list of digit characters (most significant first). -/
def natOfDigits (ds : List Char) : Nat :=
  ds.foldl (fun a c => a * 10 + digitVal c) 0

/-- Decimal digits of `n`, most significant first; `fuel` bounds the
division recursion so the definition is structural (and kernel-reducible). -/
def natDigitsAux : Nat → Nat → List Char
  | 0, _ => []
  | fuel + 1, n =>
    if n < 10 then [digitChar n]
    else natDigitsAux fuel (n / 10) ++ [digitChar (n % 10)]

/-- Decimal digits of `n`, most significant first (no leading zeros,
`0 ↦ "0"`). -/
def natDigits (n : Nat) : List Char := natDigitsAux (n + 1) n

/-- Decimal representation of a natural number (Python `str(n)` for `n ≥ 0`). -/
def natRepr (n : Nat) : String := String.mk (natDigits n)

/-- Decimal representation of an integer (Python `str(i)`). -/
def intRepr (i : Int) : String :=
  if i < 0 then "-" ++ natRepr i.natAbs else natRepr i.toNat

/-- Python f-string zero-padding of a natural `n` to width `w`: the decimal
representation,
left-padded with `0` to a minimum width of `w`. -/
def zeroPad (w n : Nat) : String :=
  String.mk (List.replicate (w - (natDigits n).length) (Char.ofNat 48) ++ natDigits n)

/-- Value of `math.ceil(math.log10 m)` for `m ≥ 1`, computed exactly: `0` for
`m ≤ 1`, otherwise the number of decimal digits of `m - 1` (which is the
least `k` with `m ≤ 10 ^ k`).  `math.log10` raises for `m ≤ 0`; the script
only evaluates this expression when at least one subsegment exists, which
requires `max_route_length ≥ 1`. -/
def ceilLog10 (m : Nat) : Nat :=
  if m ≤ 1 then 0 else (natDigits (m - 1)).length

/-! ### POSIX path helpers used by the script
(`os.path.basename`, `os.path.splitext`, `os.path.dirname`, `os.path.join`). -/

/-- Model of `os.path.basename`: the part of the path after the last `/`. -/
def basename (p : String) : String :=
  String.mk ((p.data.reverse.takeWhile (fun c => c ≠ '/')).reverse)

/-- Root part of `os.path.splitext` on a slash-free name: everything before
the last `.`, except that leading dots never start an extension. -/
def splitextRoot (p : String) : String :=
  let lead := p.data.takeWhile (fun c => c = '.')
  let rest := p.data.dropWhile (fun c => c = '.')
  if rest.contains '.' then
    String.mk (lead ++ ((rest.reverse.dropWhile (fun c => c ≠ '.')).drop 1).reverse)
  else p

/-- Model of `os.path.dirname` (posixpath): the path up to the last `/`, with
trailing slashes stripped unless the head is all slashes; `""` when the
path has no `/`. -/
def dirname (p : String) : String :=
  let head : List Char :=
    if p.data.contains '/' then (p.data.reverse.dropWhile (fun c => c ≠ '/')).reverse
    else []
  if head ≠ [] ∧ head.any (fun c => c ≠ '/') then
    String.mk ((head.reverse.dropWhile (fun c => c = '/')).reverse)
  else String.mk head

/-- Model of `os.path.join dir fname` for the two-argument form used by the script. -/
def joinPath (a b : String) : String :=
  if b.startsWith "/" then b
  else if a = "" ∨ a.endsWith "/" then a ++ b else a ++ "/" ++ b

/-- gpxsplit.py line 73: the directory the script actually passes to
`os.makedirs(..., exist_ok=True)` — note the `os.path.dirname` applied to
`args.output_dir` first. -/
def makedirsTarget (output_dir : String) : String := dirname output_dir

/-! ### The argument layer for `--max_route_length`
(gpxsplit.py lines 63-69).  The flag is declared with `type=int` and no
further validation, so argparse accepts a token exactly when Python
`int(token)` succeeds.  We model the grammar `[+-]?digit+` (Python `int`
additionally strips whitespace and allows underscores, which only makes it
more permissive). -/

/-- Conversion applied by argparse to the `--max_route_length` token:
`some` of the denoted integer when the token is a well-formed integer
literal, `none` (an argparse error) otherwise. -/
def parseIntToken (s : String) : Option Int :=
  match s.data with
  | [] => none
  | c :: rest =>
    if c = '-' then
      if rest ≠ [] ∧ rest.all isDigitChar then some (-(natOfDigits rest : Int)) else none
    else if c = '+' then
      if rest ≠ [] ∧ rest.all isDigitChar then some (natOfDigits rest : Int) else none
    else if (c :: rest).all isDigitChar then some (natOfDigits (c :: rest) : Int)
    else none

/-! ### Python `range` and list slicing, as used on lines 115-118 -/

/-- Number of elements of Python `range(start, stop, step)` (0 when
`step = 0`, where Python instead raises `ValueError`; the script reaches
that case only with `--max_route_length 0`). -/
def pythonRangeLen (start stop step : Int) : Nat :=
  if 0 < step then
    if start < stop then ((stop - start - 1) / step).toNat + 1 else 0
  else if step < 0 then
    if stop < start then ((start - stop - 1) / (-step)).toNat + 1 else 0
  else 0

/-- Python `range(start, stop, step)` as a list. -/
def pythonRange (start stop step : Int) : List Int :=
  (List.range (pythonRangeLen start stop step)).map (fun (i : Nat) => start + step * (i : Int))

/-- Normalisation of one slice bound: Python clamps `i` into `[0, n]`,
counting negative `i` from the end. -/
def pySliceIdx (n : Nat) (i : Int) : Nat :=
  if i < 0 then ((n : Int) + i).toNat else min i.toNat n

/-- Python list slice `l[a : b]`. -/
def pySlice {α : Type} (l : List α) (a b : Int) : List α :=
  (l.take (pySliceIdx l.length b)).drop (pySliceIdx l.length a)

/-! ### Data model (the gpxpy structures the script reads and builds) -/

/-- A GPX track point: coordinates plus an optional name.  Coordinates are
opaque payload for the chunker; the script never computes with them. -/
structure Point where
  latitude : Int
  longitude : Int
  elevation : Option Int
  name : Option String
  deriving Repr, DecidableEq

/-- A point with its name erased; used to state that the chunker touches
nothing but names. -/
def Point.eraseName (p : Point) : Point :=
  { p with name := none }

/-- One track segment: an ordered list of points. -/
structure GPXSegment where
  points : List Point
  deriving Repr, DecidableEq

/-- One track: an ordered list of segments. -/
structure GPXTrack where
  segments : List GPXSegment
  deriving Repr, DecidableEq

/-- One parsed GPX document (post-simplification: the optional
`gpx.simplify` pass of lines 103-107 is delegated to gpxpy and happens
before the chunker runs, so the chunker's input is the simplified tracks). -/
structure GPX where
  tracks : List GPXTrack
  deriving Repr, DecidableEq

/-- A generated route (gpxpy `GPXRoute`): a name and its points. -/
structure GPXRoute where
  name : String
  points : List Point
  deriving Repr, DecidableEq

/-! ### The chunker (gpxsplit.py lines 109-135) -/

/-- Lines 115-118: the list of slices
`segment.points[start : start + max_route_length]` for
`start in range(0, len(segment.points), max_route_length)`. -/
def subsegments (points : List Point) (max_route_length : Int) : List (List Point) :=
  (pythonRange 0 points.length max_route_length).map
    (fun start => pySlice points start (start + max_route_length))

/-- Lines 129-130: backfill one point's name if it has none, with
`point_idx` zero-padded to `ceil(log10 max_route_length)` digits. -/
def labelPoint (width : Nat) (point_idx : Nat) (p : Point) : Point :=
  match p.name with
  | none => { p with name := some (zeroPad width point_idx) }
  | some _ => p

/-- Lines 127-130: the loop `for point in sublist`, incrementing
`point_idx` once per point and backfilling missing names.  Returns the
final `point_idx` and the updated points (the Python code updates the
shared point objects in place).  `m` is `args.max_route_length`; its
`toNat` is taken because `math.log10` only accepts positive arguments and
the loop body is reachable only when `m ≥ 1`. -/
def labelSublist (m : Int) (point_idx : Nat) : List Point → Nat × List Point
  | [] => (point_idx, [])
  | p :: ps =>
    let idx := point_idx + 1
    let p2 := labelPoint (ceilLog10 m.toNat) idx p
    let r := labelSublist m idx ps
    (r.1, p2 :: r.2)

/-- Lines 122-135: the loop `for sublist_idx, sublist in enumerate(subsegments)`.
Builds one `GPXRoute` per sublist, named with the 3-digit zero-padded
`route_idx`, an underscore and `base`
(line 124), relabels the sublist's points (lines 127-130), and increments
`route_idx` once per route (line 135).  Returns the routes in creation
order together with the final `route_idx` and `point_idx`. -/
def processSubsegments (m : Int) (base : String) :
    List (List Point) → Nat → Nat → List GPXRoute × Nat × Nat
  | [], route_idx, point_idx => ([], route_idx, point_idx)
  | sublist :: rest, route_idx, point_idx =>
    let routename := zeroPad 3 route_idx ++ "_" ++ base
    let lab := labelSublist m point_idx sublist
    let route_new : GPXRoute := { name := routename, points := lab.2 }
    let r := processSubsegments m base rest (route_idx + 1) lab.1
    (route_new :: r.1, r.2.1, r.2.2)

/-- Lines 112-135: the loop over a track's segments; `point_idx` threads
across segments of the same track, `route_idx` threads across everything. -/
def processSegments (m : Int) (base : String) :
    List GPXSegment → Nat → Nat → List GPXRoute × Nat × Nat
  | [], route_idx, point_idx => ([], route_idx, point_idx)
  | seg :: rest, route_idx, point_idx =>
    let r1 := processSubsegments m base (subsegments seg.points m) route_idx point_idx
    let r2 := processSegments m base rest r1.2.1 r1.2.2
    (r1.1 ++ r2.1, r2.2.1, r2.2.2)

/-- Lines 110-135: the loop over tracks.  Line 111 re-initialises
`point_idx = 0` for every track; `route_idx` threads through. -/
def processTracks (m : Int) (base : String) :
    List GPXTrack → Nat → List GPXRoute × Nat
  | [], route_idx => ([], route_idx)
  | tr :: rest, route_idx =>
    let r1 := processSegments m base tr.segments route_idx 0
    let r2 := processTracks m base rest r1.2.1
    (r1.1 ++ r2.1, r2.2)

/-- Lines 109-135 for one input file: line 109 initialises `route_idx = 0`
per file, and line 124 derives the name base as
`os.path.splitext(os.path.basename(gpxfile.name))[0]`.  Returns the routes
generated from this file and the file's final `route_idx`. -/
def processFile (m : Int) (filename : String) (gpx : GPX) : List GPXRoute × Nat :=
  processTracks m (splitextRoot (basename filename)) gpx.tracks 0

/-- Lines 97-139: `routes_new` accumulated over all input files in order. -/
def processRun (m : Int) (files : List (String × GPX)) : List GPXRoute :=
  (files.map (fun f => (processFile m f.1 f.2).1)).flatten

/-! ### The writer (gpxsplit.py lines 141-160) -/

/-- One written output file: its path and the routes of the GPX document
serialised into it. -/
structure OutputFile where
  path : String
  routes : List GPXRoute
  deriving Repr, DecidableEq

/-- Lines 143-151: `for route_new_idx, route_new in enumerate(routes_new)`,
one file per route, named
from `route_new_idx`, `args.output` and `args.max_route_length` in the
split-file pattern, and joined onto `args.output_dir`. -/
def splitOutputs (output_dir output : String) (m : Int) :
    Nat → List GPXRoute → List OutputFile
  | _, [] => []
  | i, r :: rs =>
    { path := joinPath output_dir
        (natRepr i ++ "_" ++ output ++ "_route_split" ++ intRepr m ++ ".gpx"),
      routes := [r] } :: splitOutputs output_dir output m (i + 1) rs

/-- Lines 141-160: split mode writes one file per route; combined mode
writes a single file holding all routes, named from `args.output` and
`args.max_route_length` in the combined pattern. -/
def writeOutputs (splitfiles : Bool) (output_dir output : String) (m : Int)
    (routes_new : List GPXRoute) : List OutputFile :=
  if splitfiles then splitOutputs output_dir output m 0 routes_new
  else [{ path := joinPath output_dir (output ++ "_route_split" ++ intRepr m ++ ".gpx"),
          routes := routes_new }]

/-! ## Lemmas about decimal formatting -/

theorem natOfDigits_append_singleton (ds : List Char) (c : Char) :
    natOfDigits (ds ++ [c]) = natOfDigits ds * 10 + digitVal c := by
  simp [natOfDigits, List.foldl_append]

theorem digitVal_digitChar (n : Nat) (h : n < 10) : digitVal (digitChar n) = n := by
  interval_cases n <;> rfl

theorem natOfDigits_natDigitsAux (fuel n : Nat) (h : n < fuel) :
    natOfDigits (natDigitsAux fuel n) = n := by
  induction fuel generalizing n with
  | zero => omega
  | succ fuel ih =>
    rw [natDigitsAux]
    by_cases h10 : n < 10
    · simp only [if_pos h10]
      show 0 * 10 + digitVal (digitChar n) = n
      rw [digitVal_digitChar n h10]; omega
    · simp only [if_neg h10]
      rw [natOfDigits_append_singleton, ih (n / 10) (by omega),
        digitVal_digitChar (n % 10) (Nat.mod_lt n (by omega))]
      omega

theorem natOfDigits_natDigits (n : Nat) : natOfDigits (natDigits n) = n :=
  natOfDigits_natDigitsAux (n + 1) n (Nat.lt_succ_self n)

theorem natOfDigits_replicate_zero (k : Nat) (ds : List Char) :
    natOfDigits (List.replicate k (Char.ofNat 48) ++ ds) = natOfDigits ds := by
  induction k with
  | zero => rfl
  | succ k ih =>
    rw [List.replicate_succ, List.cons_append]
    show natOfDigits (List.replicate k (Char.ofNat 48) ++ ds) = natOfDigits ds
    exact ih

theorem natOfDigits_zeroPad (w n : Nat) : natOfDigits (zeroPad w n).data = n := by
  show natOfDigits (List.replicate (w - (natDigits n).length) (Char.ofNat 48) ++ natDigits n) = n
  rw [natOfDigits_replicate_zero, natOfDigits_natDigits]

theorem zeroPad_injective (w : Nat) : Function.Injective (zeroPad w) := by
  intro a b h
  have := congrArg (fun s => natOfDigits (String.data s)) h
  simpa [natOfDigits_zeroPad] using this

/-! ## `ceilLog10` really is `⌈log10⌉`: the least `k` with `m ≤ 10 ^ k` -/

theorem natDigitsAux_length_spec (fuel n : Nat) (h : n < fuel) :
    n < 10 ^ (natDigitsAux fuel n).length
      ∧ (1 ≤ n → ∀ k, n < 10 ^ k → (natDigitsAux fuel n).length ≤ k) := by
  induction fuel generalizing n with
  | zero => omega
  | succ fuel ih =>
    rw [natDigitsAux]
    by_cases h10 : n < 10
    · simp only [if_pos h10, List.length_singleton]
      constructor
      · simpa using h10
      · intro h1 k hk
        rcases k with _ | k
        · simp at hk; omega
        · omega
    · simp only [if_neg h10, List.length_append, List.length_singleton]
      obtain ⟨ihl, ihr⟩ := ih (n / 10) (by omega)
      constructor
      · have : n < 10 * (n / 10) + 10 := by omega
        calc n < 10 * (n / 10) + 10 := this
          _ ≤ 10 * (10 ^ (natDigitsAux fuel (n / 10)).length) := by omega
          _ = 10 ^ ((natDigitsAux fuel (n / 10)).length + 1) := by ring
      · intro _ k hk
        rcases k with _ | k
        · simp at hk; omega
        · have hdiv : n / 10 < 10 ^ k := by
            rw [Nat.div_lt_iff_lt_mul (by omega)]
            calc n < 10 ^ (k + 1) := hk
              _ = 10 ^ k * 10 := by ring
          have := ihr (by omega) k hdiv
          omega

theorem ceilLog10_spec (m : Nat) (_h : 1 ≤ m) :
    m ≤ 10 ^ ceilLog10 m ∧ ∀ k, m ≤ 10 ^ k → ceilLog10 m ≤ k := by
  unfold ceilLog10
  by_cases h1 : m ≤ 1
  · simp only [if_pos h1]
    refine ⟨by simpa using h1, fun k _ => Nat.zero_le k⟩
  · simp only [if_neg h1]
    obtain ⟨hl, hr⟩ := natDigitsAux_length_spec (m - 1 + 1) (m - 1) (Nat.lt_succ_self _)
    rw [show natDigits (m - 1) = natDigitsAux (m - 1 + 1) (m - 1) from rfl]
    exact ⟨by omega, fun k hk => hr (by omega) k (by omega)⟩

/-! ## Lemmas about `pythonRange`, `pySlice` and `subsegments` -/

theorem intCast_ediv_toNat (a b : Nat) : (((a : Int)) / ((b : Int))).toNat = a / b := by
  rw [← Int.ofNat_ediv]; exact Int.toNat_ofNat _

theorem subsegments_nil (m : Int) : subsegments [] m = [] := by
  simp [subsegments, pythonRange, pythonRangeLen]

theorem subsegments_neg (pts : List Point) (m : Int) (h : m < 0) : subsegments pts m = [] := by
  have h1 : ¬ (0 : Int) < m := by omega
  have h2 : ¬ ((pts.length : Int) < 0) := by omega
  simp [subsegments, pythonRange, pythonRangeLen, h, h1, h2]

theorem pythonRangeLen_zero (L M : Nat) (hM : 1 ≤ M) :
    pythonRangeLen 0 (L : Int) (M : Int) = (L + M - 1) / M := by
  unfold pythonRangeLen
  rw [if_pos (by exact_mod_cast hM : (0 : Int) < M)]
  by_cases hL : 1 ≤ L
  · rw [if_pos (by exact_mod_cast hL : (0 : Int) < L),
      show ((L : Int) - 0 - 1) = ((L - 1 : Nat) : Int) by omega, intCast_ediv_toNat,
      show L + M - 1 = (L - 1) + M by omega, Nat.add_div_right _ (by omega)]
  · have hL0 : L = 0 := by omega
    subst hL0
    rw [if_neg (by omega)]
    simp [Nat.div_eq_of_lt (show M - 1 < M by omega)]

theorem pySlice_nonneg {α : Type} (l : List α) (a b : Int) (ha : 0 ≤ a) (hb : 0 ≤ b) :
    pySlice l a b = (l.drop a.toNat).take (b.toNat - a.toNat) := by
  unfold pySlice pySliceIdx
  rw [if_neg (by omega), if_neg (by omega), List.drop_take]
  rcases Nat.le_total a.toNat l.length with hA | hA
  · rw [min_eq_left hA]
    rcases Nat.le_total b.toNat l.length with hB | hB
    · rw [min_eq_left hB]
    · rw [min_eq_right hB]
      have e1 : List.take (l.length - a.toNat) (List.drop a.toNat l) = List.drop a.toNat l :=
        List.take_of_length_le (by simp [List.length_drop])
      have e2 : List.take (b.toNat - a.toNat) (List.drop a.toNat l) = List.drop a.toNat l :=
        List.take_of_length_le (by rw [List.length_drop]; omega)
      rw [e1, e2]
  · rw [min_eq_right hA, List.drop_eq_nil_of_le (Nat.le_refl l.length),
      List.drop_eq_nil_of_le hA]
    simp

theorem subsegments_eq_map (pts : List Point) (m : Int) :
    subsegments pts m = (List.range (pythonRangeLen 0 pts.length m)).map
      (fun (i : Nat) => pySlice pts (m * (i : Int)) (m * (i : Int) + m)) := by
  unfold subsegments pythonRange
  rw [List.map_map]
  apply List.map_congr_left
  intro i _
  simp [Function.comp]

theorem pySlice_window (pts : List Point) (M i : Nat) :
    pySlice pts ((M : Int) * (i : Int)) ((M : Int) * (i : Int) + (M : Int))
      = (pts.drop (M * i)).take M := by
  have ha : ((M : Int) * (i : Int)).toNat = M * i := by
    rw [show (M : Int) * (i : Int) = ((M * i : Nat) : Int) by push_cast ; ring]
    exact Int.toNat_ofNat _
  have hb : ((M : Int) * (i : Int) + (M : Int)).toNat = M * i + M := by
    rw [show (M : Int) * (i : Int) + (M : Int) = ((M * i + M : Nat) : Int) by push_cast ; ring]
    exact Int.toNat_ofNat _
  rw [pySlice_nonneg pts _ _ (by positivity) (by positivity), ha, hb]
  congr 1
  omega

theorem ceil_div_shift (L M : Nat) (hM : 1 ≤ M) (hL : 1 ≤ L) :
    (L + M - 1) / M = (L - M + M - 1) / M + 1 := by
  by_cases h : L ≤ M
  · rw [show L - M = 0 by omega]
    rw [show (0 : Nat) + M - 1 = M - 1 by omega, Nat.div_eq_of_lt (show M - 1 < M by omega),
      show L + M - 1 = (L - 1) + M by omega, Nat.add_div_right _ (by omega),
      Nat.div_eq_of_lt (show L - 1 < M by omega)]
  · rw [show L + M - 1 = (L - M + M - 1) + M by omega, Nat.add_div_right _ (by omega)]

theorem subsegments_length (pts : List Point) (m : Int) (hm : 1 ≤ m) :
    (subsegments pts m).length = (pts.length + m.toNat - 1) / m.toNat := by
  obtain ⟨M, rfl⟩ : ∃ M : Nat, m = (M : Int) := ⟨m.toNat, (Int.toNat_of_nonneg (by omega)).symm⟩
  rw [Int.toNat_ofNat, subsegments_eq_map, List.length_map, List.length_range,
    pythonRangeLen_zero pts.length M (by exact_mod_cast hm)]

theorem subsegments_cons (pts : List Point) (M : Nat) (hM : 1 ≤ M) (hne : pts ≠ []) :
    subsegments pts (M : Int) = pts.take M :: subsegments (pts.drop M) (M : Int) := by
  have hL : 1 ≤ pts.length := List.length_pos.mpr hne
  rw [subsegments_eq_map, subsegments_eq_map,
    pythonRangeLen_zero pts.length M hM, pythonRangeLen_zero (pts.drop M).length M hM,
    List.length_drop, ceil_div_shift pts.length M hM hL, List.range_succ_eq_map,
    List.map_cons, List.map_map]
  congr 1
  · simpa using pySlice_window pts M 0
  · apply List.map_congr_left
    intro i _
    show pySlice pts ((M : Int) * ((Nat.succ i : Nat) : Int))
          ((M : Int) * ((Nat.succ i : Nat) : Int) + (M : Int))
        = pySlice (pts.drop M) ((M : Int) * (i : Int)) ((M : Int) * (i : Int) + (M : Int))
    rw [pySlice_window, pySlice_window, List.drop_drop]
    rw [show M * Nat.succ i = M + M * i by rw [Nat.mul_succ]; omega]

theorem subsegments_flatten_aux (M : Nat) (hM : 1 ≤ M) :
    ∀ (n : Nat) (pts : List Point), pts.length ≤ n → (subsegments pts (M : Int)).flatten = pts := by
  intro n
  induction n with
  | zero =>
    intro pts hp
    have hnil : pts = [] := List.eq_nil_of_length_eq_zero (by omega)
    subst hnil
    simp [subsegments_nil]
  | succ n ih =>
    intro pts hp
    rcases eq_or_ne pts [] with rfl | hne
    · simp [subsegments_nil]
    · have hL := List.length_pos.mpr hne
      have hdrop : (pts.drop M).length ≤ n := by rw [List.length_drop]; omega
      rw [subsegments_cons pts M hM hne, List.flatten_cons, ih (pts.drop M) hdrop,
        List.take_append_drop]

theorem subsegments_flatten (pts : List Point) (m : Int) (hm : 1 ≤ m) :
    (subsegments pts m).flatten = pts := by
  obtain ⟨M, rfl⟩ : ∃ M : Nat, m = (M : Int) := ⟨m.toNat, (Int.toNat_of_nonneg (by omega)).symm⟩
  exact subsegments_flatten_aux M (by exact_mod_cast hm) pts.length pts (Nat.le_refl _)

theorem subsegments_mem_aux (M : Nat) (hM : 1 ≤ M) :
    ∀ (n : Nat) (pts : List Point), pts.length ≤ n →
      ∀ c ∈ subsegments pts (M : Int), c ≠ [] ∧ c.length ≤ M := by
  intro n
  induction n with
  | zero =>
    intro pts hp c hc
    have hnil : pts = [] := List.eq_nil_of_length_eq_zero (by omega)
    subst hnil
    rw [subsegments_nil] at hc
    simp at hc
  | succ n ih =>
    intro pts hp c hc
    rcases eq_or_ne pts [] with rfl | hne
    · rw [subsegments_nil] at hc; simp at hc
    · have hL := List.length_pos.mpr hne
      rw [subsegments_cons pts M hM hne] at hc
      rcases List.mem_cons.mp hc with hc | hc
      · subst hc
        constructor
        · intro hcon
          have := congrArg List.length hcon
          rw [List.length_take, List.length_nil] at this
          omega
        · rw [List.length_take]; omega
      · exact ih (pts.drop M) (by rw [List.length_drop]; omega) c hc

theorem subsegments_mem (pts : List Point) (m : Int) (hm : 1 ≤ m) :
    ∀ c ∈ subsegments pts m, c ≠ [] ∧ c.length ≤ m.toNat := by
  obtain ⟨M, rfl⟩ : ∃ M : Nat, m = (M : Int) := ⟨m.toNat, (Int.toNat_of_nonneg (by omega)).symm⟩
  rw [Int.toNat_ofNat]
  exact subsegments_mem_aux M (by exact_mod_cast hm) pts.length pts (Nat.le_refl _)

theorem subsegments_dropLast_aux (M : Nat) (hM : 1 ≤ M) :
    ∀ (n : Nat) (pts : List Point), pts.length ≤ n →
      ∀ c ∈ (subsegments pts (M : Int)).dropLast, c.length = M := by
  intro n
  induction n with
  | zero =>
    intro pts hp c hc
    have hnil : pts = [] := List.eq_nil_of_length_eq_zero (by omega)
    subst hnil
    rw [subsegments_nil] at hc
    simp at hc
  | succ n ih =>
    intro pts hp c hc
    rcases eq_or_ne pts [] with rfl | hne
    · rw [subsegments_nil] at hc; simp at hc
    · have hL := List.length_pos.mpr hne
      rw [subsegments_cons pts M hM hne] at hc
      rcases eq_or_ne (pts.drop M) [] with hd | hd
      · rw [hd, subsegments_nil] at hc
        simp at hc
      · have hdl : 1 ≤ (pts.drop M).length := List.length_pos.mpr hd
        rw [List.length_drop] at hdl
        have hcons := subsegments_cons (pts.drop M) M hM hd
        rw [hcons, List.dropLast_cons₂, ← hcons] at hc
        rcases List.mem_cons.mp hc with hc | hc
        · subst hc
          rw [List.length_take]
          omega
        · exact ih (pts.drop M) (by rw [List.length_drop]; omega) c hc

theorem subsegments_dropLast (pts : List Point) (m : Int) (hm : 1 ≤ m) :
    ∀ c ∈ (subsegments pts m).dropLast, c.length = m.toNat := by
  obtain ⟨M, rfl⟩ : ∃ M : Nat, m = (M : Int) := ⟨m.toNat, (Int.toNat_of_nonneg (by omega)).symm⟩
  rw [Int.toNat_ofNat]
  exact subsegments_dropLast_aux M (by exact_mod_cast hm) pts.length pts (Nat.le_refl _)

theorem subsegments_getLast?_aux (M : Nat) (hM : 1 ≤ M) :
    ∀ (n : Nat) (pts : List Point), pts.length ≤ n →
      ∀ c, (subsegments pts (M : Int)).getLast? = some c →
        c.length = pts.length - M * ((subsegments pts (M : Int)).length - 1) := by
  intro n
  induction n with
  | zero =>
    intro pts hp c hc
    have hnil : pts = [] := List.eq_nil_of_length_eq_zero (by omega)
    subst hnil
    rw [subsegments_nil] at hc
    simp at hc
  | succ n ih =>
    intro pts hp c hc
    rcases eq_or_ne pts [] with rfl | hne
    · rw [subsegments_nil] at hc; simp at hc
    · have hL := List.length_pos.mpr hne
      rw [subsegments_cons pts M hM hne] at hc ⊢
      rcases eq_or_ne (pts.drop M) [] with hd | hd
      · have hLM : pts.length ≤ M := by
          have := congrArg List.length hd
          rw [List.length_drop] at this
          simp at this
          omega
        rw [hd, subsegments_nil] at hc ⊢
        simp at hc
        subst hc
        rw [List.length_take]
        simp
        omega
      · have hdl : 1 ≤ (pts.drop M).length := List.length_pos.mpr hd
        rw [List.length_drop] at hdl
        have hcons := subsegments_cons (pts.drop M) M hM hd
        have hlast : (pts.take M :: subsegments (pts.drop M) (M : Int)).getLast?
            = (subsegments (pts.drop M) (M : Int)).getLast? := by
          rw [hcons, List.getLast?_cons_cons, ← hcons]
        rw [hlast] at hc
        have hdrop : (pts.drop M).length ≤ n := by rw [List.length_drop]; omega
        have := ih (pts.drop M) hdrop c hc
        rw [List.length_drop] at this
        have hG : 1 ≤ (subsegments (pts.drop M) (M : Int)).length := by
          rw [hcons]; simp
        obtain ⟨G, hGe⟩ : ∃ G, (subsegments (pts.drop M) (M : Int)).length = G + 1 :=
          ⟨_, (Nat.succ_pred_eq_of_pos hG).symm⟩
        rw [List.length_cons, hGe]
        rw [hGe] at this
        simp only [Nat.add_sub_cancel] at this ⊢
        rw [Nat.mul_succ]
        omega

theorem subsegments_getLast? (pts : List Point) (m : Int) (hm : 1 ≤ m) :
    ∀ c, (subsegments pts m).getLast? = some c →
      c.length = pts.length - m.toNat * ((subsegments pts m).length - 1) := by
  obtain ⟨M, rfl⟩ : ∃ M : Nat, m = (M : Int) := ⟨m.toNat, (Int.toNat_of_nonneg (by omega)).symm⟩
  rw [Int.toNat_ofNat]
  exact subsegments_getLast?_aux M (by exact_mod_cast hm) pts.length pts (Nat.le_refl _)

/-! ## Lemmas about the labelling pass (lines 127-130) -/

theorem labelSublist_fst (m : Int) (i : Nat) (pts : List Point) :
    (labelSublist m i pts).1 = i + pts.length := by
  induction pts generalizing i with
  | nil => simp [labelSublist]
  | cons p ps ih =>
    simp only [labelSublist, ih (i + 1), List.length_cons]
    omega

theorem labelSublist_length (m : Int) (i : Nat) (pts : List Point) :
    (labelSublist m i pts).2.length = pts.length := by
  induction pts generalizing i with
  | nil => rfl
  | cons p ps ih => simp [labelSublist, ih]

theorem labelSublist_append (m : Int) (i : Nat) (xs ys : List Point) :
    (labelSublist m i (xs ++ ys)).2
      = (labelSublist m i xs).2 ++ (labelSublist m (i + xs.length) ys).2 := by
  induction xs generalizing i with
  | nil => simp [labelSublist]
  | cons p ps ih =>
    simp only [List.cons_append, labelSublist, List.length_cons, List.append_eq]
    rw [ih (i + 1), show i + 1 + ps.length = i + (ps.length + 1) by omega]

theorem labelSublist_get (m : Int) (i : Nat) (pts : List Point) :
    ∀ (j : Nat) (hj : j < pts.length) (hj2 : j < (labelSublist m i pts).2.length),
      (labelSublist m i pts).2.get ⟨j, hj2⟩
        = labelPoint (ceilLog10 m.toNat) (i + j + 1) (pts.get ⟨j, hj⟩) := by
  induction pts generalizing i with
  | nil => intro j hj _; simp at hj
  | cons p ps ih =>
    intro j hj hj2
    cases j with
    | zero => rfl
    | succ j =>
      have hj' : j < ps.length := by simpa using Nat.lt_of_succ_lt_succ hj
      have hj2' : j < (labelSublist m (i + 1) ps).2.length := by
        rw [labelSublist_length]; exact hj'
      show (labelSublist m (i + 1) ps).2.get ⟨j, hj2'⟩
          = labelPoint (ceilLog10 m.toNat) (i + (j + 1) + 1) ((p :: ps).get ⟨j + 1, hj⟩)
      rw [ih (i + 1) j hj' hj2', show i + 1 + j + 1 = i + (j + 1) + 1 by omega]
      rfl

theorem labelSublist_eraseName (m : Int) (i : Nat) (pts : List Point) :
    (labelSublist m i pts).2.map Point.eraseName = pts.map Point.eraseName := by
  induction pts generalizing i with
  | nil => rfl
  | cons p ps ih =>
    simp only [labelSublist, List.map_cons, ih (i + 1)]
    congr 1
    unfold labelPoint Point.eraseName
    cases p.name <;> rfl

/-! ## Lemmas about the per-subsegment loop (lines 122-135) -/

theorem processSubsegments_count (m : Int) (base : String) (subs : List (List Point)) :
    ∀ ri pi, (processSubsegments m base subs ri pi).1.length = subs.length := by
  induction subs with
  | nil => intro ri pi; rfl
  | cons s rest ih => intro ri pi; simp [processSubsegments, ih]

theorem processSubsegments_route_idx (m : Int) (base : String) (subs : List (List Point)) :
    ∀ ri pi, (processSubsegments m base subs ri pi).2.1 = ri + subs.length := by
  induction subs with
  | nil => intro ri pi; simp [processSubsegments]
  | cons s rest ih =>
    intro ri pi
    simp only [processSubsegments, ih, List.length_cons]
    omega

theorem processSubsegments_point_idx (m : Int) (base : String) (subs : List (List Point)) :
    ∀ ri pi, (processSubsegments m base subs ri pi).2.2 = pi + subs.flatten.length := by
  induction subs with
  | nil => intro ri pi; simp [processSubsegments]
  | cons s rest ih =>
    intro ri pi
    simp only [processSubsegments, ih, labelSublist_fst, List.flatten_cons, List.length_append]
    omega

theorem processSubsegments_points (m : Int) (base : String) (subs : List (List Point)) :
    ∀ ri pi, ((processSubsegments m base subs ri pi).1.map GPXRoute.points).flatten
      = (labelSublist m pi subs.flatten).2 := by
  induction subs with
  | nil => intro ri pi; rfl
  | cons s rest ih =>
    intro ri pi
    simp only [processSubsegments, List.map_cons, List.flatten_cons]
    rw [ih (ri + 1), labelSublist_fst, labelSublist_append]

theorem processSubsegments_names (m : Int) (base : String) (subs : List (List Point)) :
    ∀ ri pi, (processSubsegments m base subs ri pi).1.map GPXRoute.name
      = (List.range subs.length).map (fun k => zeroPad 3 (ri + k) ++ "_" ++ base) := by
  induction subs with
  | nil => intro ri pi; rfl
  | cons s rest ih =>
    intro ri pi
    simp only [processSubsegments, List.map_cons, List.length_cons]
    rw [ih (ri + 1), List.range_succ_eq_map, List.map_cons, List.map_map]
    congr 1
    apply List.map_congr_left
    intro k _
    show zeroPad 3 (ri + 1 + k) ++ "_" ++ base = zeroPad 3 (ri + Nat.succ k) ++ "_" ++ base
    rw [show ri + 1 + k = ri + Nat.succ k by omega]

/-! ## Lemmas about the per-segment loop (lines 112-135) -/

theorem processSegments_count (m : Int) (base : String) (segs : List GPXSegment) :
    ∀ ri pi, (processSegments m base segs ri pi).1.length
      = (segs.map (fun seg => (subsegments seg.points m).length)).sum := by
  induction segs with
  | nil => intro ri pi; rfl
  | cons seg rest ih =>
    intro ri pi
    simp only [processSegments, List.length_append, List.map_cons, List.sum_cons,
      processSubsegments_count, ih]

theorem processSegments_route_idx (m : Int) (base : String) (segs : List GPXSegment) :
    ∀ ri pi, (processSegments m base segs ri pi).2.1
      = ri + (processSegments m base segs ri pi).1.length := by
  induction segs with
  | nil => intro ri pi; simp [processSegments]
  | cons seg rest ih =>
    intro ri pi
    simp only [processSegments, List.length_append, ih, processSubsegments_route_idx,
      processSubsegments_count]
    omega

theorem processSegments_point_idx (m : Int) (base : String) (segs : List GPXSegment)
    (hm : 1 ≤ m) :
    ∀ ri pi, (processSegments m base segs ri pi).2.2
      = pi + (segs.map GPXSegment.points).flatten.length := by
  induction segs with
  | nil => intro ri pi; simp [processSegments]
  | cons seg rest ih =>
    intro ri pi
    simp only [processSegments, ih, processSubsegments_point_idx,
      subsegments_flatten seg.points m hm, List.map_cons, List.flatten_cons,
      List.length_append]
    omega

theorem processSegments_points (m : Int) (base : String) (segs : List GPXSegment)
    (hm : 1 ≤ m) :
    ∀ ri pi, ((processSegments m base segs ri pi).1.map GPXRoute.points).flatten
      = (labelSublist m pi (segs.map GPXSegment.points).flatten).2 := by
  induction segs with
  | nil => intro ri pi; rfl
  | cons seg rest ih =>
    intro ri pi
    simp only [processSegments, List.map_append, List.flatten_append, List.map_cons,
      List.flatten_cons]
    rw [processSubsegments_points, ih, processSubsegments_point_idx,
      subsegments_flatten seg.points m hm, labelSublist_append]

theorem processSegments_names (m : Int) (base : String) (segs : List GPXSegment) :
    ∀ ri pi, (processSegments m base segs ri pi).1.map GPXRoute.name
      = (List.range (processSegments m base segs ri pi).1.length).map
          (fun k => zeroPad 3 (ri + k) ++ "_" ++ base) := by
  induction segs with
  | nil => intro ri pi; rfl
  | cons seg rest ih =>
    intro ri pi
    simp only [processSegments, List.map_append, List.length_append,
      processSubsegments_names, processSubsegments_count, processSubsegments_route_idx]
    rw [ih]
    rw [List.range_add, List.map_append, List.map_map]
    congr 1
    apply List.map_congr_left
    intro k _
    simp only [Function.comp_apply]
    rw [show ri + (subsegments seg.points m).length + k
        = ri + ((subsegments seg.points m).length + k) by omega]

/-! ## Lemmas about the per-track loop (lines 110-135) -/

theorem processTracks_points (m : Int) (base : String) (tracks : List GPXTrack)
    (hm : 1 ≤ m) :
    ∀ ri, ((processTracks m base tracks ri).1.map GPXRoute.points).flatten
      = (tracks.map (fun tr => (labelSublist m 0 (tr.segments.map GPXSegment.points).flatten).2)).flatten := by
  induction tracks with
  | nil => intro ri; rfl
  | cons tr rest ih =>
    intro ri
    simp only [processTracks, List.map_append, List.flatten_append, List.map_cons,
      List.flatten_cons]
    rw [processSegments_points m base tr.segments hm, ih]

theorem processTracks_route_idx (m : Int) (base : String) (tracks : List GPXTrack) :
    ∀ ri, (processTracks m base tracks ri).2
      = ri + (processTracks m base tracks ri).1.length := by
  induction tracks with
  | nil => intro ri; simp [processTracks]
  | cons tr rest ih =>
    intro ri
    simp only [processTracks, List.length_append, ih, processSegments_route_idx]
    omega

theorem processTracks_names (m : Int) (base : String) (tracks : List GPXTrack) :
    ∀ ri, (processTracks m base tracks ri).1.map GPXRoute.name
      = (List.range (processTracks m base tracks ri).1.length).map
          (fun k => zeroPad 3 (ri + k) ++ "_" ++ base) := by
  induction tracks with
  | nil => intro ri; rfl
  | cons tr rest ih =>
    intro ri
    simp only [processTracks, List.map_append, List.length_append, processSegments_names]
    rw [ih]
    rw [processSegments_route_idx, List.range_add, List.map_append, List.map_map]
    congr 1
    apply List.map_congr_left
    intro k _
    simp only [Function.comp_apply]
    rw [show ri + (processSegments m base tr.segments ri 0).1.length + k
        = ri + ((processSegments m base tr.segments ri 0).1.length + k) by omega]

/-! ## Concrete inputs used in counterexamples and witnesses -/

/-- An unnamed demo point. -/
def demoPoint : Point := { latitude := 0, longitude := 0, elevation := none, name := none }

/-- A pre-named demo point. -/
def demoNamedPoint : Point :=
  { latitude := 1, longitude := 2, elevation := some 3, name := some "p" }

/-- One track, one segment, three points (the middle one pre-named). -/
def demoGPX : GPX :=
  { tracks := [{ segments := [{ points := [demoPoint, demoNamedPoint, demoPoint] }] }] }

/-- One track, one segment, one pre-named point. -/
def demoNamedGPX : GPX :=
  { tracks := [{ segments := [{ points := [demoNamedPoint] }] }] }

/-- Two tracks, each with one segment holding one unnamed point. -/
def demoTwoTrackGPX : GPX :=
  { tracks := [{ segments := [{ points := [demoPoint] }] },
               { segments := [{ points := [demoPoint] }] }] }

/-! ## The claims -/

/-- C1: for every input file and `max_route_length ≥ 1`, concatenating the
point sequences of all routes generated from the file, in generation
order, yields exactly the file's segment point sequences concatenated in
original order.  Because the script backfills point names in place, the
file's segments after the run carry the relabelled points: conjunct 1
states the concatenation equals those (per track, the labelling pass run
over the track's concatenated segment points); conjuncts 2 and 3 state
that against the pre-labelling input no point is dropped, duplicated or
reordered (same length, and pointwise identical up to the `name` field). -/
theorem C1_chunker_lossless (m : Int) (hm : 1 ≤ m) (filename : String) (gpx : GPX) :
    ((processFile m filename gpx).1.map GPXRoute.points).flatten
      = (gpx.tracks.map
          (fun tr => (labelSublist m 0 (tr.segments.map GPXSegment.points).flatten).2)).flatten
  ∧ ((processFile m filename gpx).1.map GPXRoute.points).flatten.length
      = (gpx.tracks.map (fun tr => (tr.segments.map GPXSegment.points).flatten)).flatten.length
  ∧ ((processFile m filename gpx).1.map GPXRoute.points).flatten.map Point.eraseName
      = (gpx.tracks.map
          (fun tr => (tr.segments.map GPXSegment.points).flatten)).flatten.map Point.eraseName := by
  have h1 := processTracks_points m (splitextRoot (basename filename)) gpx.tracks hm 0
  have h3 : ((processFile m filename gpx).1.map GPXRoute.points).flatten.map Point.eraseName
      = (gpx.tracks.map
          (fun tr => (tr.segments.map GPXSegment.points).flatten)).flatten.map Point.eraseName := by
    rw [show (processFile m filename gpx).1
        = (processTracks m (splitextRoot (basename filename)) gpx.tracks 0).1 from rfl, h1,
      List.map_flatten, List.map_flatten, List.map_map, List.map_map]
    congr 1
    apply List.map_congr_left
    intro tr _
    simp only [Function.comp_apply]
    exact labelSublist_eraseName m 0 _
  have h2 := congrArg List.length h3
  rw [List.length_map, List.length_map] at h2
  exact ⟨h1, h2, h3⟩

/-- Witness for C1 on a concrete 3-point file with `max_route_length = 2`. -/
theorem C1_chunker_lossless_witness :
    (1 : Int) ≤ 2
  ∧ (((processFile 2 "a/x.gpx" demoGPX).1.map GPXRoute.points).flatten
      = (demoGPX.tracks.map
          (fun tr => (labelSublist 2 0 (tr.segments.map GPXSegment.points).flatten).2)).flatten
    ∧ ((processFile 2 "a/x.gpx" demoGPX).1.map GPXRoute.points).flatten.length
      = (demoGPX.tracks.map (fun tr => (tr.segments.map GPXSegment.points).flatten)).flatten.length
    ∧ ((processFile 2 "a/x.gpx" demoGPX).1.map GPXRoute.points).flatten.map Point.eraseName
      = (demoGPX.tracks.map
          (fun tr => (tr.segments.map GPXSegment.points).flatten)).flatten.map Point.eraseName) :=
  ⟨by decide, C1_chunker_lossless 2 (by decide) "a/x.gpx" demoGPX⟩

/-- C2: for a segment of length `L` and `max_route_length` `m ≥ 1` (with
`M = m.toNat`), the chunker yields `⌈L/M⌉ = (L+M-1)/M` groups; all groups
before the last have exactly `M` points; the last group has
`L - M*(groups-1)` points, between 1 and `M`; no group is empty; and an
empty segment yields no groups and leaves `route_idx` (and `point_idx`)
unchanged. -/
theorem C2_group_sizes (pts : List Point) (m : Int) (hm : 1 ≤ m) :
    (subsegments pts m).length = (pts.length + m.toNat - 1) / m.toNat
  ∧ (∀ c ∈ (subsegments pts m).dropLast, c.length = m.toNat)
  ∧ (∀ c, (subsegments pts m).getLast? = some c →
      c.length = pts.length - m.toNat * ((subsegments pts m).length - 1)
      ∧ 1 ≤ c.length ∧ c.length ≤ m.toNat)
  ∧ (∀ c ∈ subsegments pts m, c ≠ [])
  ∧ (pts = [] → subsegments pts m = []
      ∧ ∀ (base : String) (seg : GPXSegment) (ri pi : Nat), seg.points = pts →
          processSegments m base [seg] ri pi = ([], ri, pi)) := by
  refine ⟨subsegments_length pts m hm, subsegments_dropLast pts m hm, ?_, ?_, ?_⟩
  · intro c hc
    have hmem : c ∈ subsegments pts m := List.mem_of_mem_getLast? hc
    obtain ⟨hne, hle⟩ := subsegments_mem pts m hm c hmem
    exact ⟨subsegments_getLast? pts m hm c hc, List.length_pos.mpr hne, hle⟩
  · intro c hc
    exact (subsegments_mem pts m hm c hc).1
  · intro hpts
    subst hpts
    refine ⟨subsegments_nil m, ?_⟩
    intro base seg ri pi hseg
    simp [processSegments, hseg, subsegments_nil, processSubsegments]

/-- Witness for C2 on a concrete 3-point segment with `max_route_length = 2`. -/
theorem C2_group_sizes_witness :
    (1 : Int) ≤ 2
  ∧ ((subsegments [demoPoint, demoNamedPoint, demoPoint] 2).length
        = ([demoPoint, demoNamedPoint, demoPoint].length + (2 : Int).toNat - 1) / (2 : Int).toNat
    ∧ (∀ c ∈ (subsegments [demoPoint, demoNamedPoint, demoPoint] 2).dropLast,
        c.length = (2 : Int).toNat)
    ∧ (∀ c, (subsegments [demoPoint, demoNamedPoint, demoPoint] 2).getLast? = some c →
        c.length = [demoPoint, demoNamedPoint, demoPoint].length
            - (2 : Int).toNat * ((subsegments [demoPoint, demoNamedPoint, demoPoint] 2).length - 1)
        ∧ 1 ≤ c.length ∧ c.length ≤ (2 : Int).toNat)
    ∧ (∀ c ∈ subsegments [demoPoint, demoNamedPoint, demoPoint] 2, c ≠ [])
    ∧ ([demoPoint, demoNamedPoint, demoPoint] = ([] : List Point) →
        subsegments [demoPoint, demoNamedPoint, demoPoint] 2 = []
        ∧ ∀ (base : String) (seg : GPXSegment) (ri pi : Nat),
            seg.points = [demoPoint, demoNamedPoint, demoPoint] →
            processSegments 2 base [seg] ri pi = ([], ri, pi))) :=
  ⟨by decide, C2_group_sizes [demoPoint, demoNamedPoint, demoPoint] 2 (by decide)⟩

/-- C3 counterexample: the script re-initialises `route_idx = 0` for every
input file (line 109 sits inside the `for gpxfile in args.input` loop), so
with two input files `a/x.gpx` and `b/x.gpx` the run produces the route
names `000_x` and `000_x`: the numeric prefixes do not strictly increase
across files and the names are not unique within the run. -/
theorem C3_route_names_counterexample :
    (processRun 250 [("a/x.gpx", demoNamedGPX), ("b/x.gpx", demoNamedGPX)]).map GPXRoute.name
      = ["000_x", "000_x"]
  ∧ ¬ ((processRun 250 [("a/x.gpx", demoNamedGPX),
        ("b/x.gpx", demoNamedGPX)]).map GPXRoute.name).Nodup := by
  exact ⟨rfl, by decide⟩

/-- C3 amended: within one input file, route names are exactly
`{k:03}_{base}` for `k = 0, 1, ...` in generation order (so the 3-digit
zero-padded prefixes strictly increase within the file), and they are
unique within the file; the route-index counter restarts at 0 for each
input file. -/
theorem C3_route_names_amended (m : Int) (filename : String) (gpx : GPX) :
    (processFile m filename gpx).1.map GPXRoute.name
      = (List.range (processFile m filename gpx).1.length).map
          (fun k => zeroPad 3 k ++ "_" ++ splitextRoot (basename filename))
  ∧ ((processFile m filename gpx).1.map GPXRoute.name).Nodup := by
  have h1 := processTracks_names m (splitextRoot (basename filename)) gpx.tracks 0
  have h2 : (processFile m filename gpx).1.map GPXRoute.name
      = (List.range (processFile m filename gpx).1.length).map
          (fun k => zeroPad 3 k ++ "_" ++ splitextRoot (basename filename)) := by
    rw [show (processFile m filename gpx).1
        = (processTracks m (splitextRoot (basename filename)) gpx.tracks 0).1 from rfl, h1]
    apply List.map_congr_left
    intro k _
    rw [Nat.zero_add]
  refine ⟨h2, ?_⟩
  rw [h2]
  refine List.Nodup.map ?_ (List.nodup_range _)
  intro a b hab
  have hd := congrArg String.data hab
  rw [String.data_append, String.data_append, String.data_append, String.data_append] at hd
  exact zeroPad_injective 3 (String.ext
    (List.append_cancel_right (List.append_cancel_right hd)))

/-- C4 counterexample: the script re-initialises `point_idx = 0` for every
track (line 111 sits inside the `for track in gpx.tracks` loop), not once
per file: with one file containing two tracks of one unnamed point each,
both points receive the auto-label `"001"`, so the labels do not strictly
increase across the whole file. -/
theorem C4_point_labels_counterexample :
    ((processFile 250 "x.gpx" demoTwoTrackGPX).1.map GPXRoute.points).flatten.map Point.name
      = [some "001", some "001"]
  ∧ ¬ (((processFile 250 "x.gpx" demoTwoTrackGPX).1.map
        GPXRoute.points).flatten.map Point.name).Nodup := by
  exact ⟨rfl, by decide⟩

/-- C4 amended: the point-label counter is per track, not per file: for
each track it starts at 0, increments exactly once per point of that track
(named or not, across all its segments and groups), and the `j`-th point
of the track, if unnamed, receives the label `zeroPad w (j+1)` — so the
auto-labels strictly increase within one track and restart with each new
track of the file. -/
theorem C4_point_labels_amended (m : Int) (hm : 1 ≤ m) (base : String) (tr : GPXTrack)
    (ri : Nat) :
    ((processSegments m base tr.segments ri 0).1.map GPXRoute.points).flatten.length
      = (tr.segments.map GPXSegment.points).flatten.length
  ∧ (processSegments m base tr.segments ri 0).2.2
      = (tr.segments.map GPXSegment.points).flatten.length
  ∧ ∀ (j : Nat) (hj : j < (tr.segments.map GPXSegment.points).flatten.length)
      (hj2 : j < ((processSegments m base tr.segments ri 0).1.map
          GPXRoute.points).flatten.length),
      ((tr.segments.map GPXSegment.points).flatten.get ⟨j, hj⟩).name = none →
        (((processSegments m base tr.segments ri 0).1.map
            GPXRoute.points).flatten.get ⟨j, hj2⟩).name
          = some (zeroPad (ceilLog10 m.toNat) (j + 1))
        ∧ natOfDigits (zeroPad (ceilLog10 m.toNat) (j + 1)).data = j + 1 := by
  have h1 := processSegments_points m base tr.segments hm ri 0
  have hlen : ((processSegments m base tr.segments ri 0).1.map GPXRoute.points).flatten.length
      = (tr.segments.map GPXSegment.points).flatten.length := by
    rw [h1, labelSublist_length]
  refine ⟨hlen, ?_, ?_⟩
  · have := processSegments_point_idx m base tr.segments hm ri 0
    rw [Nat.zero_add] at this
    exact this
  · intro j hj hj2 hname
    have hj3 : j < (labelSublist m 0 (tr.segments.map GPXSegment.points).flatten).2.length := by
      rw [labelSublist_length]; exact hj
    have hget := List.get_of_eq h1 ⟨j, hj2⟩
    rw [hget, labelSublist_get m 0 _ j hj, Nat.zero_add]
    constructor
    · simp only [List.get_eq_getElem] at hname
      simp [labelPoint, hname]
    · exact natOfDigits_zeroPad _ _

/-- Witness for C4 amended: one track of three points, `max_route_length = 2`. -/
theorem C4_point_labels_amended_witness :
    (1 : Int) ≤ 2
  ∧ (let tr : GPXTrack := { segments := [{ points := [demoPoint, demoNamedPoint, demoPoint] }] }
    ((processSegments 2 "x" tr.segments 0 0).1.map GPXRoute.points).flatten.length
      = (tr.segments.map GPXSegment.points).flatten.length
    ∧ (processSegments 2 "x" tr.segments 0 0).2.2
      = (tr.segments.map GPXSegment.points).flatten.length
    ∧ ∀ (j : Nat) (hj : j < (tr.segments.map GPXSegment.points).flatten.length)
        (hj2 : j < ((processSegments 2 "x" tr.segments 0 0).1.map
            GPXRoute.points).flatten.length),
        ((tr.segments.map GPXSegment.points).flatten.get ⟨j, hj⟩).name = none →
          (((processSegments 2 "x" tr.segments 0 0).1.map
              GPXRoute.points).flatten.get ⟨j, hj2⟩).name
            = some (zeroPad (ceilLog10 (2 : Int).toNat) (j + 1))
          ∧ natOfDigits (zeroPad (ceilLog10 (2 : Int).toNat) (j + 1)).data = j + 1) :=
  ⟨by decide, C4_point_labels_amended 2 (by decide) "x"
    { segments := [{ points := [demoPoint, demoNamedPoint, demoPoint] }] } 0⟩

/-! ## Lemmas about the writer and the negative-length degenerate case -/

theorem splitOutputs_length (od o : String) (m : Int) :
    ∀ (i : Nat) (rs : List GPXRoute), (splitOutputs od o m i rs).length = rs.length := by
  intro i rs
  induction rs generalizing i with
  | nil => rfl
  | cons r rest ih => simp [splitOutputs, ih]

theorem splitOutputs_get (od o : String) (m : Int) :
    ∀ (rs : List GPXRoute) (i : Nat) (j : Nat) (hj : j < (splitOutputs od o m i rs).length)
      (hj2 : j < rs.length),
      (splitOutputs od o m i rs).get ⟨j, hj⟩
        = { path := joinPath od
              (natRepr (i + j) ++ "_" ++ o ++ "_route_split" ++ intRepr m ++ ".gpx"),
            routes := [rs.get ⟨j, hj2⟩] } := by
  intro rs
  induction rs with
  | nil => intro i j hj hj2; simp at hj2
  | cons r rest ih =>
    intro i j hj hj2
    cases j with
    | zero => rfl
    | succ j =>
      have hj' : j < (splitOutputs od o m (i + 1) rest).length := by
        simpa [splitOutputs] using hj
      have hj2' : j < rest.length := by simpa using hj2
      show (splitOutputs od o m (i + 1) rest).get ⟨j, hj'⟩ = _
      rw [ih (i + 1) j hj' hj2', show i + 1 + j = i + (j + 1) by omega]
      rfl

theorem processSegments_of_neg (m : Int) (h : m < 0) (base : String) (segs : List GPXSegment) :
    ∀ ri pi, processSegments m base segs ri pi = ([], ri, pi) := by
  induction segs with
  | nil => intro ri pi; rfl
  | cons seg rest ih =>
    intro ri pi
    simp [processSegments, subsegments_neg seg.points m h, processSubsegments, ih]

theorem processTracks_of_neg (m : Int) (h : m < 0) (base : String) (tracks : List GPXTrack) :
    ∀ ri, processTracks m base tracks ri = ([], ri) := by
  induction tracks with
  | nil => intro ri; rfl
  | cons tr rest ih =>
    intro ri
    simp [processTracks, processSegments_of_neg m h, ih]

theorem processRun_of_neg (m : Int) (h : m < 0) (files : List (String × GPX)) :
    processRun m files = [] := by
  induction files with
  | nil => rfl
  | cons f rest ih =>
    simp only [processRun, List.map_cons, List.flatten_cons] at ih ⊢
    rw [ih, processFile, processTracks_of_neg m h]
    rfl

/-- C5 is a code bug: line 73 passes `os.path.dirname(args.output_dir)` to
`os.makedirs`, not the output directory itself.  For `--output_dir out`
(no trailing separator) the script calls `os.makedirs("")`, which raises
`FileNotFoundError` instead of creating `out`; for `--output_dir out/sub`
it creates only the parent `out`, and the later `open(...)` of the output
file fails because `out/sub` does not exist.  (The default `./` works only
because `dirname "./" = "."`.)  The help text of the flag — "Defines the
output directory. Is created if it doesn't exist" — documents the claimed
behaviour, so the code contradicts its own documentation. -/
theorem C5_makedirs_wrong_dir :
    makedirsTarget "out" = "" ∧ makedirsTarget "out" ≠ "out"
  ∧ makedirsTarget "out/sub" = "out" ∧ makedirsTarget "out/sub" ≠ "out/sub"
  ∧ makedirsTarget "./" = "." := by
  refine ⟨rfl, by decide, rfl, by decide, rfl⟩

/-- C6: in split mode the writer emits exactly one output file per
generated route, in generation order across all input files; the `j`-th
file contains exactly the `j`-th generated route and is named
`{j}_{output}_route_split{max_route_length}.gpx` inside the output
directory, with `j` starting at 0. -/
theorem C6_split_mode (m : Int) (files : List (String × GPX)) (output_dir output : String) :
    (writeOutputs true output_dir output m (processRun m files)).length
      = (processRun m files).length
  ∧ ∀ (j : Nat) (hj : j < (writeOutputs true output_dir output m (processRun m files)).length)
      (hj2 : j < (processRun m files).length),
      (writeOutputs true output_dir output m (processRun m files)).get ⟨j, hj⟩
        = { path := joinPath output_dir
              (natRepr j ++ "_" ++ output ++ "_route_split" ++ intRepr m ++ ".gpx"),
            routes := [(processRun m files).get ⟨j, hj2⟩] } := by
  constructor
  · exact splitOutputs_length output_dir output m 0 (processRun m files)
  · intro j hj hj2
    have h := splitOutputs_get output_dir output m (processRun m files) 0 j hj hj2
    rw [Nat.zero_add] at h
    exact h

/-- Witness for C6: a run over one concrete file with two generated routes. -/
theorem C6_split_mode_witness :
    (writeOutputs true "./" "x" 2 (processRun 2 [("x.gpx", demoGPX)])).length
      = (processRun 2 [("x.gpx", demoGPX)]).length
  ∧ ∀ (j : Nat) (hj : j < (writeOutputs true "./" "x" 2 (processRun 2 [("x.gpx", demoGPX)])).length)
      (hj2 : j < (processRun 2 [("x.gpx", demoGPX)]).length),
      (writeOutputs true "./" "x" 2 (processRun 2 [("x.gpx", demoGPX)])).get ⟨j, hj⟩
        = { path := joinPath "./"
              (natRepr j ++ "_" ++ "x" ++ "_route_split" ++ intRepr 2 ++ ".gpx"),
            routes := [(processRun 2 [("x.gpx", demoGPX)]).get ⟨j, hj2⟩] } :=
  C6_split_mode 2 [("x.gpx", demoGPX)] "./" "x"

/-- C7: the labelling pass (lines 127-130) preserves the length of the
point list; a point that already carries a name is returned unchanged; a
point without a name is returned with only its `name` field set, to the
counter value zero-padded to `ceilLog10 max_route_length` digits; and
`ceilLog10` is exactly `⌈log10⌉`, the least `k` with `m ≤ 10 ^ k`. -/
theorem C7_label_frame (m : Int) (i : Nat) (pts : List Point) :
    (labelSublist m i pts).2.length = pts.length
  ∧ (∀ (j : Nat) (hj : j < pts.length) (hj2 : j < (labelSublist m i pts).2.length),
      ((pts.get ⟨j, hj⟩).name ≠ none →
        (labelSublist m i pts).2.get ⟨j, hj2⟩ = pts.get ⟨j, hj⟩)
      ∧ ((pts.get ⟨j, hj⟩).name = none →
        (labelSublist m i pts).2.get ⟨j, hj2⟩
          = { pts.get ⟨j, hj⟩ with name := some (zeroPad (ceilLog10 m.toNat) (i + j + 1)) }))
  ∧ (1 ≤ m.toNat →
      m.toNat ≤ 10 ^ ceilLog10 m.toNat ∧ ∀ k, m.toNat ≤ 10 ^ k → ceilLog10 m.toNat ≤ k) := by
  refine ⟨labelSublist_length m i pts, ?_, ceilLog10_spec m.toNat⟩
  intro j hj hj2
  rw [labelSublist_get m i pts j hj hj2]
  rcases hname : (pts.get ⟨j, hj⟩).name with _ | nm
  · refine ⟨fun hcon => absurd rfl hcon, fun _ => ?_⟩
    simp only [List.get_eq_getElem] at hname ⊢
    simp [labelPoint, hname]
  · refine ⟨fun _ => ?_, fun hcon => absurd hcon (by simp)⟩
    simp only [List.get_eq_getElem] at hname ⊢
    simp [labelPoint, hname]

/-- Witness for C7 on a concrete mixed (named/unnamed) point list. -/
theorem C7_label_frame_witness :
    (labelSublist 250 0 [demoPoint, demoNamedPoint, demoPoint]).2.length
      = [demoPoint, demoNamedPoint, demoPoint].length
  ∧ (∀ (j : Nat) (hj : j < [demoPoint, demoNamedPoint, demoPoint].length)
      (hj2 : j < (labelSublist 250 0 [demoPoint, demoNamedPoint, demoPoint]).2.length),
      (([demoPoint, demoNamedPoint, demoPoint].get ⟨j, hj⟩).name ≠ none →
        (labelSublist 250 0 [demoPoint, demoNamedPoint, demoPoint]).2.get ⟨j, hj2⟩
          = [demoPoint, demoNamedPoint, demoPoint].get ⟨j, hj⟩)
      ∧ (([demoPoint, demoNamedPoint, demoPoint].get ⟨j, hj⟩).name = none →
        (labelSublist 250 0 [demoPoint, demoNamedPoint, demoPoint]).2.get ⟨j, hj2⟩
          = { [demoPoint, demoNamedPoint, demoPoint].get ⟨j, hj⟩ with
              name := some (zeroPad (ceilLog10 (250 : Int).toNat) (0 + j + 1)) }))
  ∧ (1 ≤ (250 : Int).toNat →
      (250 : Int).toNat ≤ 10 ^ ceilLog10 (250 : Int).toNat
      ∧ ∀ k, (250 : Int).toNat ≤ 10 ^ k → ceilLog10 (250 : Int).toNat ≤ k) :=
  C7_label_frame 250 0 [demoPoint, demoNamedPoint, demoPoint]

/-- C8 counterexample: the `--max_route_length` flag is a plain `type=int`
argument with no positivity check, so the argument layer accepts the
non-positive tokens `"0"` and `"-5"` and the run proceeds with those
values instead of exiting with an argument error. -/
theorem C8_nonpositive_accepted_counterexample :
    parseIntToken "0" = some 0 ∧ parseIntToken "-5" = some (-5)
  ∧ (0 : Int) ≤ 0 ∧ (-5 : Int) < 0 := by
  exact ⟨rfl, rfl, by decide, by decide⟩

/-- C8 amended: `--max_route_length` is typed as a plain integer; the
argument layer accepts every well-formed integer literal, including zero
and negative ones (only malformed tokens are rejected), and the accepted
value reaches the chunker unchanged. -/
theorem C8_plain_int_amended (ds : List Char) (h1 : ds ≠ [])
    (h2 : ds.all isDigitChar = true) :
    parseIntToken (String.mk ds) = some ((natOfDigits ds : Nat) : Int)
  ∧ parseIntToken (String.mk ('-' :: ds)) = some (-((natOfDigits ds : Nat) : Int)) := by
  obtain ⟨c, rest, rfl⟩ : ∃ c rest, ds = c :: rest := by
    cases ds with
    | nil => exact absurd rfl h1
    | cons c r => exact ⟨c, r, rfl⟩
  have hc : isDigitChar c = true := by
    rw [List.all_cons, Bool.and_eq_true] at h2
    exact h2.1
  have hcminus : ¬ (c = '-') := fun h => absurd (h ▸ hc) (by decide)
  have hcplus : ¬ (c = '+') := fun h => absurd (h ▸ hc) (by decide)
  have key : ∀ (c0 : Char) (r : List Char), parseIntToken (String.mk (c0 :: r))
      = (if c0 = '-' then
          if r ≠ [] ∧ r.all isDigitChar then some (-((natOfDigits r : Nat) : Int)) else none
        else if c0 = '+' then
          if r ≠ [] ∧ r.all isDigitChar then some ((natOfDigits r : Nat) : Int) else none
        else if (c0 :: r).all isDigitChar then some ((natOfDigits (c0 :: r) : Nat) : Int)
        else none) := fun c0 r => rfl
  constructor
  · rw [key, if_neg hcminus, if_neg hcplus, if_pos h2]
  · rw [key, if_pos rfl, if_pos ⟨List.cons_ne_nil c rest, h2⟩]

/-- Witness for C8 amended, on the token `"250"`. -/
theorem C8_plain_int_amended_witness :
    ((['2', '5', '0'] : List Char) ≠ []
      ∧ (['2', '5', '0'] : List Char).all isDigitChar = true)
  ∧ (parseIntToken (String.mk ['2', '5', '0'])
        = some ((natOfDigits ['2', '5', '0'] : Nat) : Int)
    ∧ parseIntToken (String.mk ('-' :: ['2', '5', '0']))
        = some (-((natOfDigits ['2', '5', '0'] : Nat) : Int))) :=
  ⟨⟨by decide, by decide⟩, C8_plain_int_amended ['2', '5', '0'] (by decide) (by decide)⟩

/-- C9: with a negative `max_route_length`, `range(0, L, m)` is empty, so
every segment (non-empty or not) yields zero subsegments: all points are
silently dropped, no error is raised, the whole run generates no routes,
and the combined-mode writer still writes exactly one output file, which
contains no routes. -/
theorem C9_negative_drops_everything (m : Int) (hm : m < 0) (pts : List Point)
    (files : List (String × GPX)) (output_dir output : String) :
    subsegments pts m = []
  ∧ processRun m files = []
  ∧ writeOutputs false output_dir output m (processRun m files)
      = [{ path := joinPath output_dir (output ++ "_route_split" ++ intRepr m ++ ".gpx"),
           routes := [] }] := by
  refine ⟨subsegments_neg pts m hm, processRun_of_neg m hm files, ?_⟩
  rw [processRun_of_neg m hm files]
  rfl

/-- Witness for C9 at `max_route_length = -5` on a concrete non-empty input. -/
theorem C9_negative_drops_everything_witness :
    (-5 : Int) < 0
  ∧ (subsegments [demoPoint] (-5) = []
    ∧ processRun (-5) [("x.gpx", demoGPX)] = []
    ∧ writeOutputs false "./" "x" (-5) (processRun (-5) [("x.gpx", demoGPX)])
        = [{ path := joinPath "./" ("x" ++ "_route_split" ++ intRepr (-5) ++ ".gpx"),
             routes := [] }]) :=
  ⟨by decide, C9_negative_drops_everything (-5) (by decide) [demoPoint]
    [("x.gpx", demoGPX)] "./" "x"⟩

/-- C10: the point counter is incremented before a label is assigned
(line 128 precedes line 130), so within a track — where the counter starts
at 0 (line 111) — the first point, if unnamed, receives the label
formatted from 1, and an unnamed point never receives the label formatted
from 0. -/
theorem C10_labels_start_at_one (m : Int) (hm : 1 ≤ m) (base : String) (tr : GPXTrack)
    (ri : Nat) (p : Point)
    (hp : (tr.segments.map GPXSegment.points).flatten.head? = some p)
    (hname : p.name = none) :
    (((processSegments m base tr.segments ri 0).1.map GPXRoute.points).flatten).head?
      = some { p with name := some (zeroPad (ceilLog10 m.toNat) 1) }
  ∧ ∀ (j : Nat) (hj : j < (tr.segments.map GPXSegment.points).flatten.length)
      (hj2 : j < (((processSegments m base tr.segments ri 0).1.map
          GPXRoute.points).flatten).length),
      ((tr.segments.map GPXSegment.points).flatten.get ⟨j, hj⟩).name = none →
        (((processSegments m base tr.segments ri 0).1.map
            GPXRoute.points).flatten.get ⟨j, hj2⟩).name
          ≠ some (zeroPad (ceilLog10 m.toNat) 0) := by
  have h1 := processSegments_points m base tr.segments hm ri 0
  constructor
  · rcases hl : (tr.segments.map GPXSegment.points).flatten with _ | ⟨q, t⟩
    · rw [hl] at hp
      simp at hp
    · rw [hl] at hp
      simp only [List.head?_cons, Option.some.injEq] at hp
      rw [h1, hl]
      show some (labelPoint (ceilLog10 m.toNat) 1 q) = _
      rw [hp]
      simp [labelPoint, hname]
  · intro j hj hj2 hjname
    have hget := List.get_of_eq h1 ⟨j, hj2⟩
    rw [hget, labelSublist_get m 0 _ j hj, Nat.zero_add]
    simp only [List.get_eq_getElem] at hjname ⊢
    simp only [labelPoint, hjname]
    intro hcon
    simp only [Option.some.injEq] at hcon
    exact absurd (zeroPad_injective (ceilLog10 m.toNat) hcon) (by omega)

/-- Witness for C10 on a concrete two-track file, `max_route_length = 250`. -/
theorem C10_labels_start_at_one_witness :
    ((1 : Int) ≤ 250
      ∧ ((demoTwoTrackGPX.tracks.get ⟨0, by decide⟩).segments.map
          GPXSegment.points).flatten.head? = some demoPoint
      ∧ demoPoint.name = none)
  ∧ ((((processSegments 250 "x" (demoTwoTrackGPX.tracks.get ⟨0, by decide⟩).segments 0 0).1.map
        GPXRoute.points).flatten).head?
      = some { demoPoint with name := some (zeroPad (ceilLog10 (250 : Int).toNat) 1) }
    ∧ ∀ (j : Nat)
        (hj : j < (((demoTwoTrackGPX.tracks.get ⟨0, by decide⟩).segments.map
            GPXSegment.points).flatten).length)
        (hj2 : j < (((processSegments 250 "x"
            (demoTwoTrackGPX.tracks.get ⟨0, by decide⟩).segments 0 0).1.map
            GPXRoute.points).flatten).length),
        ((((demoTwoTrackGPX.tracks.get ⟨0, by decide⟩).segments.map
            GPXSegment.points).flatten).get ⟨j, hj⟩).name = none →
          ((((processSegments 250 "x"
              (demoTwoTrackGPX.tracks.get ⟨0, by decide⟩).segments 0 0).1.map
              GPXRoute.points).flatten).get ⟨j, hj2⟩).name
            ≠ some (zeroPad (ceilLog10 (250 : Int).toNat) 0)) :=
  ⟨⟨by decide, by decide, rfl⟩,
    C10_labels_start_at_one 250 (by decide) "x" (demoTwoTrackGPX.tracks.get ⟨0, by decide⟩)
      0 demoPoint (by decide) rfl⟩

end GpxSplit
